import Mathlib

/-!
Verification development for the PhasePortrait repository.

The embedding models the numeric core of the repository over exact rationals:

* Python `int`, `float` and `Fraction` component values are modelled by `ℚ`
  (every Python `float` that is not NaN or Inf denotes an exact rational, and
  `fractions.Fraction` is an exact normalized rational, as is Lean's `Rat`);
  the float NaN sentinel is modelled by `none` in `Option ℚ` where it matters.
* Float overflow ("the squared modulus is Inf") is modelled as the exact value
  exceeding `maxFloat`, the largest finite IEEE-754 double.
* A Python function raising an error is modelled by an `Option` result:
  `none` is the raised error, `some` the returned value.
* `math.atan`/`math.pi` in `RiemannSphere.argument` and the logarithm in the
  colour map are transcendental, so the hue computation of `Color.HSL` is
  modelled over `ℝ` with `Real.arctan` and `Real.pi`.
-/

set_option autoImplicit false

/-- Largest finite IEEE-754 double, `(2^53 - 1) * 2^971`, as an exact rational.
A squared modulus strictly above this overflows to `inf` in the host floats. -/
def maxFloat : ℚ := (2 ^ 53 - 1) * 2 ^ 971

/-- Python `int()` applied to an exact rational value: truncation toward zero
(`int(2.5) = 2`, `int(-2.5) = -2`). -/
def pytruncQ (q : ℚ) : ℤ := if 0 ≤ q then ⌊q⌋ else ⌈q⌉

/-- The extended complex value type of `RiemannSphere.py`.  A value is either
Finite with two exact numeric components, or the single Infinite value (whose
stored components are the NaN sentinel; the source invariant is that the
`infinite` flag is set exactly when both components are NaN, so a tagged
variant is a faithful state model). -/
inductive RiemannSphere where
  | finite (re im : ℚ)
  | infty
deriving DecidableEq

/-- The constant `INFTY` of `RiemannSphere.py` (line 1458). -/
def INFTY : RiemannSphere := .infty

/-- `is_null` (RiemannSphere.py lines 283-300): Finite with both components
zero. -/
def RiemannSphere.is_null : RiemannSphere → Bool
  | .finite r i => decide (r = 0 ∧ i = 0)
  | .infty => false

/-- `is_infinite` (RiemannSphere.py lines 302-323). -/
def RiemannSphere.is_infinite : RiemannSphere → Bool
  | .finite _ _ => false
  | .infty => true

/-- The `real` attribute as stored: the NaN sentinel (`none`) exactly for the
Infinite value, otherwise the exact numeric value. -/
def RiemannSphere.realF : RiemannSphere → Option ℚ
  | .finite r _ => some r
  | .infty => none

/-- The `imaginary` attribute as stored: NaN (`none`) exactly for Infinite. -/
def RiemannSphere.imaginaryF : RiemannSphere → Option ℚ
  | .finite _ i => some i
  | .infty => none

/-- `RiemannSphere.__init__` (lines 121-140) on non-NaN numeric components
with the `infinite` flag unset: compute `m = real**2 + imaginary**2`; if `m`
overflows the float range the components become NaN and the value is Infinite
(overflow absorption), otherwise the Finite value is stored.  Overflow of the
exact squared modulus is modelled as exceeding `maxFloat`. -/
def mkFinite (real imaginary : ℚ) : RiemannSphere :=
  if real ^ 2 + imaginary ^ 2 > maxFloat then .infty
  else .finite real imaginary

/-- The full constructor `RiemannSphere.__init__` (lines 114-140).  Numeric
components are `Option ℚ` with `none` the float NaN sentinel; the result is
`none` when the constructor raises (`ValueError` for an inconsistent
infinite/NaN combination), `some z` when a value is produced.  With
`infinite = true` both components must be NaN; with the flag unset no
component may be NaN, and squared-modulus overflow is silently absorbed into
the Infinite value by `mkFinite`. -/
def construct (real imaginary : Option ℚ) (infinite : Bool) :
    Option RiemannSphere :=
  if infinite then
    match real, imaginary with
    | none, none => some .infty
    | _, _ => none
  else
    match real, imaginary with
    | some r, some i => some (mkFinite r i)
    | _, _ => none

/-- `__hash__` (RiemannSphere.py lines 224-225):
`int((self.real + self.imaginary) * 1000)`.  For the Infinite value both
stored components are NaN; NaN propagates through `+` and `*`, and Python's
`int()` raises `ValueError` on NaN, which is the `none` result. -/
def RiemannSphere.hash (z : RiemannSphere) : Option ℤ :=
  match z.realF, z.imaginaryF with
  | some r, some i => some (pytruncQ ((r + i) * 1000))
  | _, _ => none

/-- `__eq__` (RiemannSphere.py lines 227-253) restricted to a `RiemannSphere`
right operand: an infinite left operand equals exactly the infinite values;
otherwise component-wise comparison (a NaN component never equals a number,
so Finite never equals Infinite). -/
def RiemannSphere.eq : RiemannSphere → RiemannSphere → Bool
  | .infty, w => w.is_infinite
  | .finite a b, .finite c d => decide (a = c ∧ b = d)
  | .finite _ _, .infty => false

/-- The right operand of an arithmetic dunder: a host `int`/`float` scalar or
another `RiemannSphere` value.  (Operands of any other type raise `TypeError`
in the source and are excluded by this type.) -/
inductive Operand where
  | scalar (q : ℚ)
  | rs (z : RiemannSphere)
deriving DecidableEq

/-- The test `(isinstance(other, RiemannSphere) and other.is_null()) or
other == 0` used by `__mul__`/`__rmul__` on an infinite left operand: a
`RiemannSphere` operand is tested with `is_null`, a scalar against zero (a
`RiemannSphere` never compares equal to the literal `0`). -/
def operandIsNullOrZero : Operand → Bool
  | .scalar q => decide (q = 0)
  | .rs z => z.is_null

/-- `__mul__` (RiemannSphere.py lines 738-763).  `none` is the raised
`ValueError` (`0 x oo is not defined!`); a Finite product is built by the
absorbing constructor. -/
def RiemannSphere.mul (self : RiemannSphere) (other : Operand) :
    Option RiemannSphere :=
  match self with
  | .infty => if operandIsNullOrZero other then none else some .infty
  | .finite a b =>
    match other with
    | .rs .infty =>
      if (RiemannSphere.finite a b).is_null then none else some .infty
    | .rs (.finite c d) => some (mkFinite (a * c - b * d) (a * d + b * c))
    | .scalar q => some (mkFinite (a * q) (b * q))

/-- `__rmul__` (RiemannSphere.py lines 859-884): `other * self` for a host
scalar (or foreign) left operand `other`; its body is the same computation as
`__mul__` (multiplication is commutative in the source formulas). -/
def RiemannSphere.rmul (self : RiemannSphere) (other : Operand) :
    Option RiemannSphere :=
  match self with
  | .infty => if operandIsNullOrZero other then none else some .infty
  | .finite a b =>
    match other with
    | .rs .infty =>
      if (RiemannSphere.finite a b).is_null then none else some .infty
    | .rs (.finite c d) => some (mkFinite (a * c - b * d) (a * d + b * c))
    | .scalar q => some (mkFinite (a * q) (b * q))

/-- `__sub__` (RiemannSphere.py lines 560-576): `self - other`.  An infinite
operand on either side absorbs (`oo - z = z - oo = oo`); no error is raised
for any numeric operand. -/
def RiemannSphere.sub (self : RiemannSphere) (other : Operand) :
    RiemannSphere :=
  match self with
  | .infty => .infty
  | .finite a b =>
    match other with
    | .rs .infty => .infty
    | .rs (.finite c d) => mkFinite (a - c) (b - d)
    | .scalar q => mkFinite (a - q) b

/-- `__rsub__` (RiemannSphere.py lines 626-642): `other - self` for a host
scalar (or `RiemannSphere`) left operand. -/
def RiemannSphere.rsub (self : RiemannSphere) (other : Operand) :
    RiemannSphere :=
  match self with
  | .infty => .infty
  | .finite a b =>
    match other with
    | .rs .infty => .infty
    | .rs (.finite c d) => mkFinite (c - a) (d - b)
    | .scalar q => mkFinite (q - a) (-b)

/-- An exponent for `__pow__`: Python distinguishes `int`, `float` and
`RiemannSphere` exponents by `isinstance`. -/
inductive Exponent where
  | int (n : ℤ)
  | float (q : ℚ)
  | rs (z : RiemannSphere)

/-- The integer-exponent loop of `__pow__` (lines 1191-1195):
`p = RiemannSphere(1, 0); for i in range(other): p *= self`.  `range` of a
non-positive integer is empty, hence the `ℕ` iteration count.  Each step is
`__mul__`, whose possible `ValueError` propagates. -/
def powLoop (self : RiemannSphere) : ℕ → Option RiemannSphere
  | 0 => some (.finite 1 0)
  | n + 1 => (powLoop self n).bind fun p => p.mul (.rs self)

/-- `__pow__` (RiemannSphere.py lines 1191-1212).  An `int` exponent is
computed by repeated multiplication before any other check.  Otherwise a null
base raises (`z ** alpha is not defined for z == 0`); an infinite base raises
on a zero exponent (`0 x oo is not defined!`) and yields `INFTY` otherwise.
The remaining branch `(other * self.complex_log()).complex_exp()` — a Finite
non-null base with a `float` or `RiemannSphere` exponent — is transcendental
and not representable over exact rationals; it is abstracted as the `expLog`
parameter, consulted only on that branch. -/
def RiemannSphere.pow (expLog : RiemannSphere → Exponent → Option RiemannSphere)
    (self : RiemannSphere) (other : Exponent) : Option RiemannSphere :=
  match other with
  | .int n => powLoop self n.toNat
  | .float q =>
    if self.is_null then none
    else if self.is_infinite then
      if q = 0 then none else some .infty
    else expLog self (.float q)
  | .rs w =>
    if self.is_null then none
    else if self.is_infinite then
      if w.is_null then none else some .infty
    else expLog self (.rs w)

/-- `approx` (Color.py lines 23-44): round to the nearest integer, where a
value at distance exactly one half from its truncation stays at the
truncation (`abs(f - int(f)) <= 1/2`), and otherwise the value is pushed one
away from the truncation, upward for `f >= 0` and downward otherwise. -/
def approx (f : ℚ) : ℤ :=
  if |f - (pytruncQ f : ℚ)| ≤ 1 / 2 then pytruncQ f
  else if 0 ≤ f then pytruncQ f + 1
  else pytruncQ f - 1

/-- Python `int()` on an exact real value: truncation toward zero. -/
noncomputable def pytruncR (x : ℝ) : ℤ := if 0 ≤ x then ⌊x⌋ else ⌈x⌉

/-- `approx` (Color.py lines 23-44) as used on the real-valued hue, which is
built from `atan` and `pi` and hence modelled over `ℝ`; same branches as
`approx`. -/
noncomputable def approxR (x : ℝ) : ℤ :=
  if |x - (pytruncR x : ℝ)| ≤ 1 / 2 then pytruncR x
  else if 0 ≤ x then pytruncR x + 1
  else pytruncR x - 1

/-- `argument` (RiemannSphere.py lines 1375-1432) for a Finite value with
components `re`, `im`, by quadrant: `atan(im/re)` for `re > 0`, shifted by
`±pi` for `re < 0` according to the sign of `im`, and `±pi/2` on the
imaginary axis.  The source raises for the null value before reaching these
branches, so the final catch-all `0` is unreachable under the null-excluding
hypotheses of every theorem using this definition. -/
noncomputable def argumentR (re im : ℝ) : ℝ :=
  if re > 0 then Real.arctan (im / re)
  else if re < 0 then
    (if im ≥ 0 then Real.pi + Real.arctan (im / re)
     else -Real.pi + Real.arctan (im / re))
  else if im > 0 then Real.pi / 2
  else if im < 0 then -(Real.pi / 2)
  else 0

/-- The hue component computed by `HSL` (Color.py lines 127-138) for a
Finite, non-null value: `hue = z.argument() * 180 / pi`; `hue += 360` when
`hue <= 0`; `hue = approx(hue)`; and the returned triple applies `approx`
once more to the already-integral hue. -/
noncomputable def hslHue (re im : ℝ) : ℤ :=
  approxR ((approxR (
    if argumentR re im * 180 / Real.pi ≤ 0 then
      argumentR re im * 180 / Real.pi + 360
    else
      argumentR re im * 180 / Real.pi) : ℤ) : ℝ)

/-- The cache-key reduction of `recover_datas` (PhasePortrait.py lines
198-204) for one exact rational grid coordinate `(x, y)`:
`lcm_tmp = abs(x.denominator * y.denominator) // gcd(...)` (the `abs` is the
identity on the positive denominators of normalized fractions), and the key
triple `(lcm_tmp, int(x * lcm_tmp), int(y * lcm_tmp))`. -/
def cacheKeyRecover (x y : ℚ) : ℤ × ℤ × ℤ :=
  ((x.den * y.den / Nat.gcd x.den y.den : ℕ),
   pytruncQ (x * (x.den * y.den / Nat.gcd x.den y.den : ℕ)),
   pytruncQ (y * (x.den * y.den / Nat.gcd x.den y.den : ℕ)))

/-- The cache-key reduction of `compute_a_value` (PhasePortrait.py lines
300-307) for the coordinate `(z.real, z.imaginary)`:
`lcm_tmp = int(abs(z.real.denominator * z.imaginary.denominator) // gcd(...))`
(the extra `int()` is the identity on the integer quotient), and the stored
triple `(lcm_tmp, int(z.real * lcm_tmp), int(z.imaginary * lcm_tmp))`. -/
def cacheKeyStore (x y : ℚ) : ℤ × ℤ × ℤ :=
  ((x.den * y.den / Nat.gcd x.den y.den : ℕ),
   pytruncQ (x * (x.den * y.den / Nat.gcd x.den y.den : ℕ)),
   pytruncQ (y * (x.den * y.den / Nat.gcd x.den y.den : ℕ)))

/-- `liste_x` (PhasePortrait.py lines 156-157): the abscissas
`left_below.real + Fraction(i, resolution)` for
`i in range(int((right_upper.real - left_below.real) * resolution) + 1)`. -/
def liste_x (lb ru : ℚ) (resolution : ℕ) : List ℚ :=
  (List.range (pytruncQ ((ru - lb) * resolution) + 1).toNat).map
    fun i : ℕ => lb + (i : ℚ) / (resolution : ℚ)

/-- `liste_y` (PhasePortrait.py lines 158-159): the ordinates, same
construction from the imaginary parts of the corners. -/
def liste_y (lb ru : ℚ) (resolution : ℕ) : List ℚ :=
  (List.range (pytruncQ ((ru - lb) * resolution) + 1).toNat).map
    fun i : ℕ => lb + (i : ℚ) / (resolution : ℚ)

/-- `to_compute` in the no-persistence branch of `compute` (PhasePortrait.py
line 380): `[(x, y) for x in self.liste_x for y in self.liste_y]`. -/
def to_compute (lx ly : List ℚ) : List (ℚ × ℚ) :=
  lx.flatMap fun x => ly.map fun y => (x, y)

/-- Python dict assignment `values[pixel] = v` on an insertion-ordered
dictionary modelled as an association list: replace the value at an existing
key in place, otherwise append the new binding. -/
def dictSet (m : List ((ℕ × ℕ) × RiemannSphere)) (k : ℕ × ℕ)
    (v : RiemannSphere) : List ((ℕ × ℕ) × RiemannSphere) :=
  if m.any fun e => e.1 = k then
    m.map fun e => if e.1 = k then (k, v) else e
  else m ++ [(k, v)]

/-- Python dict lookup on the association-list model: the value at the key,
if present. -/
def dictGet (m : List ((ℕ × ℕ) × RiemannSphere)) (k : ℕ × ℕ) :
    Option RiemannSphere :=
  (m.find? fun e => decide (e.1 = k)).map Prod.snd

/-- `compute_a_value` (PhasePortrait.py lines 275-323) with persistence
disabled (`database == ""`): `values[pixel] = self.function(z)`, except that
a `ValueError` (the `DomainError` of the spec) raised by the function leaves
the dictionary untouched for this pixel (the point is skipped with a
diagnostic and computation continues). -/
def compute_a_value (f : RiemannSphere → Option RiemannSphere)
    (z : RiemannSphere) (pixel : ℕ × ℕ)
    (values : List ((ℕ × ℕ) × RiemannSphere)) :
    List ((ℕ × ℕ) × RiemannSphere) :=
  match f z with
  | some v => dictSet values pixel v
  | none => values

/-- `compute` (PhasePortrait.py lines 325-427) in the no-persistence branch
(`database == ""`, lines 378-384 and the loop at 397-400): `values = {}`;
for each `(x, y)` in `to_compute`, build `z = RiemannSphere(x, y)`, locate
the pixel `(liste_x.index(x), liste_y.index(y))` and run `compute_a_value`.
The lists are those of the constructor for corners `lb` and `ru` (as exact
rational pairs) at the given resolution. -/
def compute (f : RiemannSphere → Option RiemannSphere) (lb ru : ℚ × ℚ)
    (resolution : ℕ) : List ((ℕ × ℕ) × RiemannSphere) :=
  (to_compute (liste_x lb.1 ru.1 resolution) (liste_y lb.2 ru.2 resolution)).foldl
    (fun values xy =>
      compute_a_value f (mkFinite xy.1 xy.2)
        ((liste_x lb.1 ru.1 resolution).indexOf xy.1,
         (liste_y lb.2 ru.2 resolution).indexOf xy.2)
        values)
    []

lemma mkFinite_of_le {r i : ℚ} (h : r ^ 2 + i ^ 2 ≤ maxFloat) :
    mkFinite r i = .finite r i := by
  rw [mkFinite, if_neg (not_lt.mpr h)]

lemma mkFinite_zero_zero : mkFinite 0 0 = .finite 0 0 :=
  mkFinite_of_le (by norm_num [maxFloat])

lemma pytruncQ_five_half : pytruncQ (5 / 2) = 2 := by
  rw [pytruncQ, if_pos (by norm_num : (0 : ℚ) ≤ 5 / 2)]
  norm_num

lemma pytruncQ_neg_five_half : pytruncQ (-5 / 2) = -2 := by
  rw [pytruncQ, if_neg (by norm_num : ¬(0 : ℚ) ≤ -5 / 2),
    show ((-5 : ℚ) / 2) = -(5 / 2) by norm_num, Int.ceil_neg]
  norm_num

lemma approx_five_half : approx (5 / 2) = 2 := by
  rw [approx, pytruncQ_five_half,
    if_pos (by rw [abs_le]; constructor <;> norm_num :
      |(5 : ℚ) / 2 - ((2 : ℤ) : ℚ)| ≤ 1 / 2)]

lemma approx_neg_five_half : approx (-5 / 2) = -2 := by
  rw [approx, pytruncQ_neg_five_half,
    if_pos (by rw [abs_le]; constructor <;> norm_num :
      |(-5 : ℚ) / 2 - ((-2 : ℤ) : ℚ)| ≤ 1 / 2)]

/-- C2: the rounding function `approx` shared by the hue computation of `HSL`
and the channel computation of `RGB` rounds to the nearest integer, but an
input at distance exactly one half from its truncation is NOT rounded away
from zero: the claimed value approx(-2.5) = -3 is wrong, the code returns
-2. -/
theorem claim_C2_counterexample :
    approx (-5 / 2) = -2 ∧ approx (-5 / 2) ≠ -3 := by
  refine ⟨approx_neg_five_half, ?_⟩
  rw [approx_neg_five_half]
  decide

/-- C2 (amended): the rounding function `approx` used identically for the hue
in `HSL` and every RGB channel in `RGB` rounds to the nearest integer and
sends every input whose distance to its truncation is exactly one half to the
truncation itself (round-half-toward-zero): approx(2.5) = 2 and
approx(-2.5) = -2. -/
theorem claim_C2_amended :
    (∀ q : ℚ, |q - (pytruncQ q : ℚ)| = 1 / 2 → approx q = pytruncQ q) ∧
    approx (5 / 2) = 2 ∧ approx (-5 / 2) = -2 := by
  refine ⟨fun q h => ?_, approx_five_half, approx_neg_five_half⟩
  rw [approx, if_pos (le_of_eq h)]

lemma powLoop_zero_succ (n : ℕ) :
    powLoop (.finite 0 0) (n + 1) = some (.finite 0 0) := by
  induction n with
  | zero =>
    show ((some (RiemannSphere.finite 1 0)).bind
      fun p => p.mul (.rs (.finite 0 0))) = _
    simp [RiemannSphere.mul, RiemannSphere.is_null]
    exact mkFinite_zero_zero
  | succ m ih =>
    show ((powLoop (.finite 0 0) (m + 1)).bind
      fun p => p.mul (.rs (.finite 0 0))) = _
    rw [ih]
    show (RiemannSphere.finite 0 0).mul (.rs (.finite 0 0)) = _
    simp [RiemannSphere.mul]
    exact mkFinite_zero_zero

lemma powLoop_infty_succ (n : ℕ) :
    powLoop .infty (n + 1) = some .infty := by
  induction n with
  | zero =>
    show ((some (RiemannSphere.finite 1 0)).bind
      fun p => p.mul (.rs .infty)) = _
    simp [RiemannSphere.mul, RiemannSphere.is_null]
  | succ m ih =>
    show ((powLoop .infty (m + 1)).bind fun p => p.mul (.rs .infty)) = _
    rw [ih]
    show RiemannSphere.mul .infty (.rs .infty) = _
    simp [RiemannSphere.mul, operandIsNullOrZero, RiemannSphere.is_null]

/-- C3: the claim that raising the Finite zero value to any non-zero exponent
fails with DomainError is wrong for integer exponents: the integer branch of
__pow__ runs repeated multiplication before any singularity check, so zero
raised to the integer 2 returns the Finite zero value and raises nothing. -/
theorem claim_C3_counterexample :
    RiemannSphere.pow (fun _ _ => none) (.finite 0 0) (.int 2) =
      some (.finite 0 0) := by
  show powLoop (.finite 0 0) ((2 : ℤ)).toNat = _
  exact powLoop_zero_succ 1

/-- C3 (amended): integer exponents are computed by repeated multiplication
starting from one and bypass the singular-point checks, so a non-positive
integer exponent yields one for every base (including zero and Infinite),
zero to a positive integer yields zero, and Infinite to a positive integer
yields Infinite; for a float or extended-complex exponent the singular rules
of the claim do hold: a zero base always raises DomainError, Infinite raised
to the float 0.0 or to the zero value raises DomainError, and Infinite raised
to a non-zero float or non-null value yields Infinite.  (Stated for every
model expLog of the transcendental finite-base branch, which none of these
cases reaches.) -/
theorem claim_C3_amended :
    ∀ expLog : RiemannSphere → Exponent → Option RiemannSphere,
    (∀ (z : RiemannSphere) (n : ℤ),
      RiemannSphere.pow expLog z (.int n) = powLoop z n.toNat) ∧
    (∀ q : ℚ, RiemannSphere.pow expLog (.finite 0 0) (.float q) = none) ∧
    (∀ w : RiemannSphere,
      RiemannSphere.pow expLog (.finite 0 0) (.rs w) = none) ∧
    (RiemannSphere.pow expLog .infty (.float 0) = none) ∧
    (∀ q : ℚ, q ≠ 0 →
      RiemannSphere.pow expLog .infty (.float q) = some .infty) ∧
    (RiemannSphere.pow expLog .infty (.rs (.finite 0 0)) = none) ∧
    (∀ w : RiemannSphere, w.is_null = false →
      RiemannSphere.pow expLog .infty (.rs w) = some .infty) ∧
    (∀ (z : RiemannSphere) (n : ℤ), n ≤ 0 →
      RiemannSphere.pow expLog z (.int n) = some (.finite 1 0)) ∧
    (∀ n : ℕ,
      RiemannSphere.pow expLog (.finite 0 0) (.int (n + 1)) =
        some (.finite 0 0)) ∧
    (∀ n : ℕ,
      RiemannSphere.pow expLog .infty (.int (n + 1)) = some .infty) := by
  intro expLog
  refine ⟨fun z n => rfl, fun q => ?_, fun w => ?_, ?_, fun q hq => ?_, ?_,
    fun w hw => ?_, fun z n hn => ?_, fun n => ?_, fun n => ?_⟩
  · simp [RiemannSphere.pow, RiemannSphere.is_null]
  · simp [RiemannSphere.pow, RiemannSphere.is_null]
  · simp [RiemannSphere.pow, RiemannSphere.is_null, RiemannSphere.is_infinite]
  · simp [RiemannSphere.pow, RiemannSphere.is_null, RiemannSphere.is_infinite, hq]
  · simp [RiemannSphere.pow, RiemannSphere.is_null, RiemannSphere.is_infinite]
  · simp [RiemannSphere.pow, RiemannSphere.is_infinite, hw,
      show RiemannSphere.is_null .infty = false from rfl]
  · show powLoop z n.toNat = _
    rw [Int.toNat_of_nonpos hn]
    rfl
  · show powLoop (.finite 0 0) ((n : ℤ) + 1).toNat = _
    rw [show ((n : ℤ) + 1).toNat = n + 1 by omega]
    exact powLoop_zero_succ n
  · show powLoop .infty ((n : ℤ) + 1).toNat = _
    rw [show ((n : ℤ) + 1).toNat = n + 1 by omega]
    exact powLoop_infty_succ n

/-- C5: the claim that the hash of ExtendedComplexNumber never fails is
wrong: for the Infinite value both stored components are the NaN sentinel,
int((NaN + NaN) * 1000) raises ValueError, so hashing Infinite fails. -/
theorem claim_C5_counterexample : RiemannSphere.hash .infty = none := rfl

/-- C5 (amended): the hash is a deterministic function that succeeds on every
Finite value, and any two values that compare equal under __eq__ have the
same hash; but on the Infinite value the hash does not produce an integer —
it raises ValueError through int(NaN). -/
theorem claim_C5_amended :
    (∀ r i : ℚ, (RiemannSphere.hash (.finite r i)).isSome = true) ∧
    (∀ z w : RiemannSphere, z.eq w = true →
      RiemannSphere.hash z = RiemannSphere.hash w) ∧
    RiemannSphere.hash .infty = none := by
  refine ⟨fun r i => rfl, fun z w h => ?_, rfl⟩
  cases z with
  | infty =>
    cases w with
    | infty => rfl
    | finite c d => simp [RiemannSphere.eq, RiemannSphere.is_infinite] at h
  | finite a b =>
    cases w with
    | infty => simp [RiemannSphere.eq] at h
    | finite c d =>
      simp only [RiemannSphere.eq, decide_eq_true_eq] at h
      rw [h.1, h.2]

/-- C6: constructing a value whose exact squared magnitude overflows the
float range, with the infinite flag unset, raises nothing and yields the
Infinite value (overflow absorption at construction). -/
theorem claim_C6 :
    ∀ real imaginary : ℚ, maxFloat < real ^ 2 + imaginary ^ 2 →
    construct (some real) (some imaginary) false = some .infty := by
  intro r i h
  show some (mkFinite r i) = some .infty
  rw [mkFinite, if_pos h]

theorem claim_C6_witness :
    construct (some ((2 : ℚ) ^ 600)) (some 0) false = some .infty :=
  claim_C6 ((2 : ℚ) ^ 600) 0 (by norm_num [maxFloat])

/-- C9: multiplying the Finite zero value by Infinite raises DomainError in
both argument orders, including against the host scalar zero; and Infinite
times any non-null value (Finite or Infinite, scalar or not, either order)
yields Infinite. -/
theorem claim_C9 :
    (RiemannSphere.mul (.finite 0 0) (.rs .infty) = none) ∧
    (RiemannSphere.mul .infty (.rs (.finite 0 0)) = none) ∧
    (RiemannSphere.mul .infty (.scalar 0) = none) ∧
    (RiemannSphere.rmul .infty (.scalar 0) = none) ∧
    (∀ z : RiemannSphere, z.is_null = false →
      RiemannSphere.mul .infty (.rs z) = some .infty) ∧
    (∀ z : RiemannSphere, z.is_null = false →
      RiemannSphere.mul z (.rs .infty) = some .infty) ∧
    (∀ q : ℚ, q ≠ 0 → RiemannSphere.mul .infty (.scalar q) = some .infty) ∧
    (∀ q : ℚ, q ≠ 0 → RiemannSphere.rmul .infty (.scalar q) = some .infty) := by
  refine ⟨?_, ?_, ?_, ?_, fun z hz => ?_, fun z hz => ?_, fun q hq => ?_,
    fun q hq => ?_⟩
  · simp [RiemannSphere.mul, RiemannSphere.is_null]
  · simp [RiemannSphere.mul, operandIsNullOrZero, RiemannSphere.is_null]
  · simp [RiemannSphere.mul, operandIsNullOrZero]
  · simp [RiemannSphere.rmul, operandIsNullOrZero]
  · simp [RiemannSphere.mul, operandIsNullOrZero, hz]
  · cases z with
    | infty => simp [RiemannSphere.mul, operandIsNullOrZero, RiemannSphere.is_null]
    | finite a b => simp [RiemannSphere.mul, hz]
  · simp [RiemannSphere.mul, operandIsNullOrZero, hq]
  · simp [RiemannSphere.rmul, operandIsNullOrZero, hq]

/-- C10: subtraction absorbs the Infinite value exactly like addition, in
both operand positions and through both __sub__ and __rsub__, with no error:
z - oo = oo and oo - z = oo for every value z and every host scalar, in
particular oo - oo = oo. -/
theorem claim_C10 :
    (∀ z : RiemannSphere, z.sub (.rs .infty) = .infty) ∧
    (∀ z : RiemannSphere, RiemannSphere.sub .infty (.rs z) = .infty) ∧
    (∀ q : ℚ, RiemannSphere.sub .infty (.scalar q) = .infty) ∧
    (∀ z : RiemannSphere, z.rsub (.rs .infty) = .infty) ∧
    (∀ z : RiemannSphere, RiemannSphere.rsub .infty (.rs z) = .infty) ∧
    (∀ q : ℚ, RiemannSphere.rsub .infty (.scalar q) = .infty) := by
  refine ⟨fun z => ?_, fun z => rfl, fun q => rfl, fun z => ?_, fun z => rfl,
    fun q => rfl⟩
  · cases z <;> rfl
  · cases z <;> rfl

lemma pytruncQ_intCast (n : ℤ) : pytruncQ (n : ℚ) = n := by
  rw [pytruncQ]
  split
  · exact Int.floor_intCast n
  · exact Int.ceil_intCast n

lemma den_dvd_lcmden (x y : ℚ) : x.den ∣ x.den * y.den / Nat.gcd x.den y.den := by
  rw [show x.den * y.den / Nat.gcd x.den y.den = Nat.lcm x.den y.den from rfl]
  exact Nat.dvd_lcm_left _ _

lemma den_dvd_lcmden_right (x y : ℚ) :
    y.den ∣ x.den * y.den / Nat.gcd x.den y.den := by
  rw [show x.den * y.den / Nat.gcd x.den y.den = Nat.lcm x.den y.den from rfl]
  exact Nat.dvd_lcm_right _ _

lemma mul_den_multiple_eq_intCast (x : ℚ) (l : ℕ) (h : x.den ∣ l) :
    x * (l : ℚ) = ((x.num * ((l / x.den : ℕ) : ℤ) : ℤ) : ℚ) := by
  obtain ⟨k, hk⟩ := h
  subst hk
  have hd : (x.den : ℚ) ≠ 0 := by
    exact_mod_cast x.den_nz
  have hnum : x * (x.den : ℚ) = (x.num : ℚ) :=
    ((div_eq_iff hd).mp (Rat.num_div_den x)).symm
  rw [Nat.mul_div_cancel_left k x.pos]
  push_cast
  rw [← mul_assoc, hnum]

/-- C1: the cache key is well-defined on mathematical points: the reduction
used when storing a value in compute_a_value is the same function as the
reduction used when looking points up in recover_datas, and the key depends
only on the exact rational point, not on the fraction representation (hence
not on the resolution) that generated it; moreover, the scaled components of
the key encode the point exactly (scaledReal = x * multiplier and
scaledImag = y * multiplier with no truncation loss), so two coordinates
denote the same point exactly when they produce the same key. -/
theorem claim_C1 :
    (∀ x y : ℚ, cacheKeyStore x y = cacheKeyRecover x y) ∧
    (∀ p1 q1 r1 s1 p2 q2 r2 s2 : ℤ,
      (p1 : ℚ) / (q1 : ℚ) = (p2 : ℚ) / (q2 : ℚ) →
      (r1 : ℚ) / (s1 : ℚ) = (r2 : ℚ) / (s2 : ℚ) →
      cacheKeyStore ((p1 : ℚ) / (q1 : ℚ)) ((r1 : ℚ) / (s1 : ℚ)) =
        cacheKeyRecover ((p2 : ℚ) / (q2 : ℚ)) ((r2 : ℚ) / (s2 : ℚ))) ∧
    (∀ x y : ℚ,
      (((cacheKeyStore x y).2.1 : ℚ) = x * ((cacheKeyStore x y).1 : ℚ)) ∧
      (((cacheKeyStore x y).2.2 : ℚ) = y * ((cacheKeyStore x y).1 : ℚ))) := by
  have hsr : ∀ x y : ℚ, cacheKeyStore x y = cacheKeyRecover x y :=
    fun x y => rfl
  refine ⟨hsr, fun p1 q1 r1 s1 p2 q2 r2 s2 h1 h2 => ?_, fun x y => ?_⟩
  · rw [h1, h2]
    exact hsr _ _
  · constructor
    · show ((pytruncQ (x * _) : ℤ) : ℚ) = x * (((_ : ℕ) : ℤ) : ℚ)
      rw [Int.cast_natCast, mul_den_multiple_eq_intCast x _ (den_dvd_lcmden x y),
        pytruncQ_intCast]
    · show ((pytruncQ (y * _) : ℤ) : ℚ) = y * (((_ : ℕ) : ℤ) : ℚ)
      rw [Int.cast_natCast,
        mul_den_multiple_eq_intCast y _ (den_dvd_lcmden_right x y),
        pytruncQ_intCast]

lemma dictGet_cons_self {e : (ℕ × ℕ) × RiemannSphere}
    {t : List ((ℕ × ℕ) × RiemannSphere)} {k : ℕ × ℕ} (h : e.1 = k) :
    dictGet (e :: t) k = some e.2 := by
  rw [dictGet, List.find?_cons_of_pos _ (by simp [h])]
  rfl

lemma dictGet_cons_ne {e : (ℕ × ℕ) × RiemannSphere}
    {t : List ((ℕ × ℕ) × RiemannSphere)} {k : ℕ × ℕ} (h : e.1 ≠ k) :
    dictGet (e :: t) k = dictGet t k := by
  rw [dictGet, List.find?_cons_of_neg _ (by simp [h])]
  rfl

lemma dictGet_dictSet_self (m : List ((ℕ × ℕ) × RiemannSphere)) (k : ℕ × ℕ)
    (v : RiemannSphere) : dictGet (dictSet m k v) k = some v := by
  rw [dictSet]
  by_cases h : m.any fun e => e.1 = k
  · rw [if_pos h]
    induction m with
    | nil => simp at h
    | cons e t ih =>
      rw [List.map_cons]
      by_cases he : e.1 = k
      · rw [if_pos he]
        exact dictGet_cons_self rfl
      · rw [if_neg he, dictGet_cons_ne he]
        refine ih ?_
        simp only [List.any_cons, Bool.or_eq_true, decide_eq_true_eq] at h
        rcases h with h | h
        · exact absurd h he
        · exact h
  · rw [if_neg h]
    simp only [List.any_eq_true, decide_eq_true_eq, not_exists, not_and] at h
    induction m with
    | nil => exact dictGet_cons_self rfl
    | cons e t ih =>
      rw [List.cons_append, dictGet_cons_ne (h e (List.mem_cons_self e t))]
      exact ih fun x hx => h x (List.mem_cons_of_mem e hx)

lemma dictGet_dictSet_ne (m : List ((ℕ × ℕ) × RiemannSphere)) (k : ℕ × ℕ)
    (v : RiemannSphere) (k' : ℕ × ℕ) (hk : k' ≠ k) :
    dictGet (dictSet m k v) k' = dictGet m k' := by
  rw [dictSet]
  by_cases h : m.any fun e => e.1 = k
  · rw [if_pos h]
    clear h
    induction m with
    | nil => rfl
    | cons e t ih =>
      rw [List.map_cons]
      by_cases he : e.1 = k
      · have hek' : e.1 ≠ k' := by
          rw [he]
          exact Ne.symm hk
        rw [if_pos he, dictGet_cons_ne (show ((k, v) : (ℕ × ℕ) × RiemannSphere).1 ≠ k' from Ne.symm hk),
          dictGet_cons_ne hek']
        exact ih
      · rw [if_neg he]
        by_cases he' : e.1 = k'
        · rw [dictGet_cons_self he', dictGet_cons_self he']
        · rw [dictGet_cons_ne he', dictGet_cons_ne he']
          exact ih
  · rw [if_neg h]
    clear h
    induction m with
    | nil =>
      exact dictGet_cons_ne
        (show ((k, v) : (ℕ × ℕ) × RiemannSphere).1 ≠ k' from Ne.symm hk)
    | cons e t ih =>
      by_cases he' : e.1 = k'
      · rw [List.cons_append, dictGet_cons_self he', dictGet_cons_self he']
      · rw [List.cons_append, dictGet_cons_ne he', dictGet_cons_ne he']
        exact ih

lemma dictSet_of_fresh (m : List ((ℕ × ℕ) × RiemannSphere)) (k : ℕ × ℕ)
    (v : RiemannSphere) (h : ∀ e ∈ m, e.1 ≠ k) :
    dictSet m k v = m ++ [(k, v)] := by
  rw [dictSet, if_neg]
  simp only [List.any_eq_true, decide_eq_true_eq, not_exists, not_and]
  exact h

/-- The step of the computation loop of `compute` (PhasePortrait.py lines
397-400): construct the grid argument, locate its pixel by position in the
coordinate lists, and run `compute_a_value`. -/
def computeStep (f : RiemannSphere → Option RiemannSphere) (lx ly : List ℚ)
    (values : List ((ℕ × ℕ) × RiemannSphere)) (xy : ℚ × ℚ) :
    List ((ℕ × ℕ) × RiemannSphere) :=
  compute_a_value f (mkFinite xy.1 xy.2)
    (lx.indexOf xy.1, ly.indexOf xy.2) values

lemma compute_eq_foldl (f : RiemannSphere → Option RiemannSphere)
    (lb ru : ℚ × ℚ) (resolution : ℕ) :
    compute f lb ru resolution =
      (to_compute (liste_x lb.1 ru.1 resolution)
          (liste_y lb.2 ru.2 resolution)).foldl
        (computeStep f (liste_x lb.1 ru.1 resolution)
          (liste_y lb.2 ru.2 resolution)) [] := rfl

lemma dictGet_foldl_of_notkey (f : RiemannSphere → Option RiemannSphere)
    (lx ly : List ℚ) (L : List (ℚ × ℚ))
    (m0 : List ((ℕ × ℕ) × RiemannSphere)) (k : ℕ × ℕ)
    (h : ∀ xy ∈ L, (lx.indexOf xy.1, ly.indexOf xy.2) ≠ k) :
    dictGet (L.foldl (computeStep f lx ly) m0) k = dictGet m0 k := by
  induction L generalizing m0 with
  | nil => rfl
  | cons p T ih =>
    rw [List.foldl_cons,
      ih _ fun xy hxy => h xy (List.mem_cons_of_mem _ hxy)]
    rw [computeStep, compute_a_value]
    cases hf : f (mkFinite p.1 p.2) with
    | none => rfl
    | some v =>
      exact dictGet_dictSet_ne _ _ _ _ (Ne.symm (h p (List.mem_cons_self _ _)))

lemma dictGet_foldl_of_key (f : RiemannSphere → Option RiemannSphere)
    (lx ly : List ℚ) (L : List (ℚ × ℚ))
    (m0 : List ((ℕ × ℕ) × RiemannSphere)) (xy : ℚ × ℚ) (k : ℕ × ℕ)
    (hnd : (L.map fun p => (lx.indexOf p.1, ly.indexOf p.2)).Nodup)
    (hmem : xy ∈ L) (hk : (lx.indexOf xy.1, ly.indexOf xy.2) = k)
    (h0 : dictGet m0 k = none) :
    dictGet (L.foldl (computeStep f lx ly) m0) k = f (mkFinite xy.1 xy.2) := by
  induction L generalizing m0 with
  | nil => cases hmem
  | cons p T ih =>
    rw [List.map_cons, List.nodup_cons] at hnd
    obtain ⟨hp, hT⟩ := hnd
    rw [List.foldl_cons]
    rcases List.mem_cons.mp hmem with rfl | hmemT
    · have hTkeys : ∀ q ∈ T, (lx.indexOf q.1, ly.indexOf q.2) ≠ k := by
        intro q hq hEq
        exact hp (hk ▸ hEq ▸ List.mem_map_of_mem _ hq)
      rw [dictGet_foldl_of_notkey f lx ly T _ k hTkeys]
      rw [computeStep, compute_a_value]
      cases hf : f (mkFinite xy.1 xy.2) with
      | none => exact h0
      | some v =>
        rw [← hk]
        exact dictGet_dictSet_self _ _ _
    · have hpk : (lx.indexOf p.1, ly.indexOf p.2) ≠ k := by
        intro hEq
        apply hp
        rw [hEq, ← hk]
        exact List.mem_map_of_mem _ hmemT
      refine ih _ hT hmemT ?_
      rw [computeStep, compute_a_value]
      cases hf : f (mkFinite p.1 p.2) with
      | none => exact h0
      | some v =>
        rw [dictGet_dictSet_ne _ _ _ _ (Ne.symm hpk)]
        exact h0

lemma length_foldl_of_success (f : RiemannSphere → Option RiemannSphere)
    (lx ly : List ℚ) (L : List (ℚ × ℚ))
    (m0 : List ((ℕ × ℕ) × RiemannSphere))
    (hnd : (L.map fun p => (lx.indexOf p.1, ly.indexOf p.2)).Nodup)
    (hfresh : ∀ xy ∈ L, ∀ e ∈ m0, e.1 ≠ (lx.indexOf xy.1, ly.indexOf xy.2))
    (hf : ∀ xy ∈ L, (f (mkFinite xy.1 xy.2)).isSome = true) :
    (L.foldl (computeStep f lx ly) m0).length = m0.length + L.length := by
  induction L generalizing m0 with
  | nil => simp
  | cons p T ih =>
    rw [List.map_cons, List.nodup_cons] at hnd
    obtain ⟨hp, hT⟩ := hnd
    obtain ⟨v, hv⟩ := Option.isSome_iff_exists.mp
      (hf p (List.mem_cons_self _ _))
    rw [List.foldl_cons,
      show computeStep f lx ly m0 p =
          m0 ++ [((lx.indexOf p.1, ly.indexOf p.2), v)] from by
        rw [computeStep, compute_a_value, hv]
        exact dictSet_of_fresh _ _ _
          fun e he => hfresh p (List.mem_cons_self _ _) e he]
    rw [ih _ hT ?fresh fun xy hxy => hf xy (List.mem_cons_of_mem _ hxy)]
    · simp only [List.length_append, List.length_cons, List.length_nil]
      omega
    case fresh =>
      intro xy hxy e he
      rcases List.mem_append.mp he with he0 | he1
      · exact hfresh xy (List.mem_cons_of_mem _ hxy) e he0
      · rcases List.mem_singleton.mp he1 with rfl
        intro hc
        apply hp
        rw [show ((lx.indexOf p.1, ly.indexOf p.2) : ℕ × ℕ) =
            (lx.indexOf xy.1, ly.indexOf xy.2) from hc]
        exact List.mem_map_of_mem _ hxy

lemma liste_x_nodup (lb ru : ℚ) (r : ℕ) (hr : 0 < r) :
    (liste_x lb ru r).Nodup := by
  unfold liste_x
  refine List.Nodup.map ?_ (List.nodup_range _)
  intro i j hij
  have hr0 : (r : ℚ) ≠ 0 := Nat.cast_ne_zero.mpr hr.ne'
  have h2 : (i : ℚ) / r = (j : ℚ) / r := add_left_cancel hij
  field_simp at h2
  exact h2

lemma liste_x_length (lb ru : ℚ) (r : ℕ) :
    (liste_x lb ru r).length = (pytruncQ ((ru - lb) * r) + 1).toNat := by
  unfold liste_x
  rw [List.length_map, List.length_range]

lemma liste_x_get (lb ru : ℚ) (r : ℕ) (i : ℕ)
    (hi : i < (liste_x lb ru r).length) :
    (liste_x lb ru r).get ⟨i, hi⟩ = lb + (i : ℚ) / r := by
  have h := List.get_eq_getElem (liste_x lb ru r) ⟨i, hi⟩
  rw [h]
  show ((List.range _).map fun i : ℕ => lb + (i : ℚ) / r)[i] = _
  rw [List.getElem_map, List.getElem_range]

lemma liste_y_eq_liste_x : liste_y = liste_x := rfl

lemma to_compute_eq_product (lx ly : List ℚ) :
    to_compute lx ly = lx.product ly := rfl

lemma to_compute_keys_nodup (lx ly : List ℚ) (hx : lx.Nodup) (hy : ly.Nodup) :
    ((to_compute lx ly).map
      fun p => (lx.indexOf p.1, ly.indexOf p.2)).Nodup := by
  have hprod : (to_compute lx ly).Nodup := by
    rw [to_compute_eq_product]
    exact hx.product hy
  refine hprod.map_on ?_
  rintro ⟨p1, p2⟩ hp ⟨q1, q2⟩ hq hpq
  rw [to_compute_eq_product] at hp hq
  have hp' := List.pair_mem_product.mp hp
  have hq' := List.pair_mem_product.mp hq
  have h1 : p1 = q1 :=
    (List.indexOf_inj hp'.1 hq'.1).mp (congrArg Prod.fst hpq)
  have h2 : p2 = q2 :=
    (List.indexOf_inj hp'.2 hq'.2).mp (congrArg Prod.snd hpq)
  rw [h1, h2]

set_option maxHeartbeats 1000000 in
lemma dictGet_compute (f : RiemannSphere → Option RiemannSphere)
    (lb ru : ℚ × ℚ) (r : ℕ) (hr : 0 < r) (i j : ℕ)
    (hi : i < (liste_x lb.1 ru.1 r).length)
    (hj : j < (liste_y lb.2 ru.2 r).length) :
    dictGet (compute f lb ru r) (i, j) =
      f (mkFinite ((liste_x lb.1 ru.1 r).get ⟨i, hi⟩)
        ((liste_y lb.2 ru.2 r).get ⟨j, hj⟩)) := by
  have hlxnd : (liste_x lb.1 ru.1 r).Nodup := liste_x_nodup _ _ _ hr
  have hlynd : (liste_y lb.2 ru.2 r).Nodup := by
    rw [liste_y_eq_liste_x]
    exact liste_x_nodup lb.2 ru.2 r hr
  have hxmem : (liste_x lb.1 ru.1 r).get ⟨i, hi⟩ ∈ liste_x lb.1 ru.1 r :=
    List.get_mem _ _ _
  have hymem : (liste_y lb.2 ru.2 r).get ⟨j, hj⟩ ∈ liste_y lb.2 ru.2 r :=
    List.get_mem _ _ _
  have hmem : ((liste_x lb.1 ru.1 r).get ⟨i, hi⟩,
      (liste_y lb.2 ru.2 r).get ⟨j, hj⟩) ∈
      to_compute (liste_x lb.1 ru.1 r) (liste_y lb.2 ru.2 r) := by
    rw [to_compute_eq_product]
    exact List.pair_mem_product.mpr ⟨hxmem, hymem⟩
  have hkey : ((liste_x lb.1 ru.1 r).indexOf
        ((liste_x lb.1 ru.1 r).get ⟨i, hi⟩),
      (liste_y lb.2 ru.2 r).indexOf
        ((liste_y lb.2 ru.2 r).get ⟨j, hj⟩)) = (i, j) := by
    rw [List.get_indexOf hlxnd, List.get_indexOf hlynd]
  rw [compute_eq_foldl]
  exact dictGet_foldl_of_key f (liste_x lb.1 ru.1 r) (liste_y lb.2 ru.2 r)
    (to_compute (liste_x lb.1 ru.1 r) (liste_y lb.2 ru.2 r)) []
    ((liste_x lb.1 ru.1 r).get ⟨i, hi⟩, (liste_y lb.2 ru.2 r).get ⟨j, hj⟩)
    (i, j) (to_compute_keys_nodup _ _ hlxnd hlynd) hmem hkey rfl

lemma liste_y_nodup (lb ru : ℚ) (r : ℕ) (hr : 0 < r) :
    (liste_y lb ru r).Nodup := by
  rw [liste_y_eq_liste_x]
  exact liste_x_nodup lb ru r hr

lemma liste_y_length (lb ru : ℚ) (r : ℕ) :
    (liste_y lb ru r).length = (pytruncQ ((ru - lb) * r) + 1).toNat := by
  rw [liste_y_eq_liste_x]
  exact liste_x_length lb ru r

lemma liste_y_get (lb ru : ℚ) (r : ℕ) (i : ℕ)
    (hi : i < (liste_y lb ru r).length) :
    (liste_y lb ru r).get ⟨i, hi⟩ = lb + (i : ℚ) / r := by
  have h := List.get_eq_getElem (liste_y lb ru r) ⟨i, hi⟩
  rw [h]
  show ((List.range _).map fun i : ℕ => lb + (i : ℚ) / r)[i] = _
  rw [List.getElem_map, List.getElem_range]

/-- C8: partial-failure tolerance of the grid computation without
persistence: for every supplied function f (modelled as value-or-DomainError),
every rectangle and every positive resolution, the returned PixelValueMap has
at pixel (i, j) exactly the value of f at the grid point (x_i, y_j) when f
succeeds there, and no entry at (i, j) when f raises DomainError there: each
failing point is skipped and does not affect the value recorded for any other
point, and compute returns without aborting. -/
theorem claim_C8 (f : RiemannSphere → Option RiemannSphere) (lb ru : ℚ × ℚ)
    (r : ℕ) (hr : 0 < r) (i j : ℕ)
    (hi : i < (liste_x lb.1 ru.1 r).length)
    (hj : j < (liste_y lb.2 ru.2 r).length) :
    dictGet (compute f lb ru r) (i, j) =
      f (mkFinite ((liste_x lb.1 ru.1 r).get ⟨i, hi⟩)
        ((liste_y lb.2 ru.2 r).get ⟨j, hj⟩)) :=
  dictGet_compute f lb ru r hr i j hi hj

lemma liste_x_011_length : (liste_x 0 1 1).length = 2 := by
  rw [liste_x_length]
  norm_num [pytruncQ]
  rfl

lemma liste_y_011_length : (liste_y 0 1 1).length = 2 := by
  rw [liste_y_length]
  norm_num [pytruncQ]
  rfl

/-- A sample partial function for the witness: fails with DomainError exactly
on the null value and is the identity elsewhere. -/
def fEx : RiemannSphere → Option RiemannSphere :=
  fun z => if z.is_null then none else some z

theorem claim_C8_witness :
    dictGet (compute fEx (0, 0) (1, 1) 1) (0, 0) = none := by
  have hlen1 : 0 < (liste_x 0 1 1).length := by
    rw [liste_x_011_length]
    omega
  have hlen2 : 0 < (liste_y 0 1 1).length := by
    rw [liste_y_011_length]
    omega
  rw [claim_C8 fEx (0, 0) (1, 1) 1 (by norm_num) 0 0 hlen1 hlen2]
  show fEx (mkFinite ((liste_x 0 1 1).get ⟨0, hlen1⟩)
    ((liste_y 0 1 1).get ⟨0, hlen2⟩)) = none
  rw [liste_x_get 0 1 1 0 hlen1, liste_y_get 0 1 1 0 hlen2]
  rw [show (0 : ℚ) + ((0 : ℕ) : ℚ) / ((1 : ℕ) : ℚ) = 0 from by norm_num]
  rw [mkFinite_zero_zero]
  unfold fEx
  simp [RiemannSphere.is_null]

/-- The identity function of the concrete scenario (the doctest of
PhasePortrait: `def id(x): return x`), total on every value. -/
def idRS : RiemannSphere → Option RiemannSphere := fun z => some z

lemma liste_x_012 : liste_x 0 1 2 = [0, 1 / 2, 1] := by
  unfold liste_x
  rw [show (pytruncQ (((1 : ℚ) - 0) * (2 : ℕ)) + 1).toNat = 3 from by
    norm_num [pytruncQ]; rfl]
  rw [show List.range 3 = [0, 1, 2] from rfl]
  simp only [List.map_cons, List.map_nil]
  norm_num

lemma liste_y_022 : liste_y 0 2 2 = [0, 1 / 2, 1, 3 / 2, 2] := by
  rw [liste_y_eq_liste_x]
  unfold liste_x
  rw [show (pytruncQ (((2 : ℚ) - 0) * (2 : ℕ)) + 1).toNat = 5 from by
    norm_num [pytruncQ]; rfl]
  rw [show List.range 5 = [0, 1, 2, 3, 4] from rfl]
  simp only [List.map_cons, List.map_nil]
  norm_num

/-- C7: the concrete grid scenario of the doctest: the identity function over
the rectangle with corners 0 and 1+2i at resolution 2, with no persistence,
enumerates the abscissas 0, 1/2, 1 and the ordinates 0, 1/2, 1, 3/2, 2, and
compute produces a PixelValueMap with exactly 15 entries in which the pixel
(i, j) maps to the Finite value at the grid coordinate (i/2, j/2) itself. -/
theorem claim_C7 :
    liste_x 0 1 2 = [0, 1 / 2, 1] ∧
    liste_y 0 2 2 = [0, 1 / 2, 1, 3 / 2, 2] ∧
    (compute idRS (0, 0) (1, 2) 2).length = 15 ∧
    (∀ i j : ℕ, ∀ _ : i < 3, ∀ _ : j < 5,
      dictGet (compute idRS (0, 0) (1, 2) 2) (i, j) =
        some (.finite ((i : ℚ) / 2) ((j : ℚ) / 2))) := by
  have hxnd : (liste_x 0 1 2).Nodup := liste_x_nodup 0 1 2 (by norm_num)
  have hynd : (liste_y 0 2 2).Nodup := liste_y_nodup 0 2 2 (by norm_num)
  refine ⟨liste_x_012, liste_y_022, ?_, ?_⟩
  · rw [compute_eq_foldl]
    rw [length_foldl_of_success idRS (liste_x 0 1 2) (liste_y 0 2 2)
      (to_compute (liste_x 0 1 2) (liste_y 0 2 2)) []
      (to_compute_keys_nodup _ _ hxnd hynd)
      (fun xy _ e he => absurd he (List.not_mem_nil e))
      (fun xy _ => rfl)]
    rw [to_compute_eq_product, liste_x_012, liste_y_022]
    rfl
  · intro i j hi hj
    have hi' : i < (liste_x 0 1 2).length := by
      rw [liste_x_012]
      exact hi
    have hj' : j < (liste_y 0 2 2).length := by
      rw [liste_y_022]
      exact hj
    rw [dictGet_compute idRS (0, 0) (1, 2) 2 (by norm_num) i j hi' hj']
    show idRS (mkFinite ((liste_x 0 1 2).get ⟨i, hi'⟩)
      ((liste_y 0 2 2).get ⟨j, hj'⟩)) = _
    rw [liste_x_get 0 1 2 i hi', liste_y_get 0 2 2 j hj']
    have hx : (0 : ℚ) + (i : ℚ) / ((2 : ℕ) : ℚ) = (i : ℚ) / 2 := by
      push_cast
      ring
    have hy : (0 : ℚ) + (j : ℚ) / ((2 : ℕ) : ℚ) = (j : ℚ) / 2 := by
      push_cast
      ring
    rw [hx, hy]
    have hi2 : (i : ℚ) ≤ 2 := by
      have : i ≤ 2 := by omega
      exact_mod_cast this
    have hj4 : (j : ℚ) ≤ 4 := by
      have : j ≤ 4 := by omega
      exact_mod_cast this
    have hin : (0 : ℚ) ≤ (i : ℚ) := Nat.cast_nonneg i
    have hjn : (0 : ℚ) ≤ (j : ℚ) := Nat.cast_nonneg j
    have hmk : mkFinite ((i : ℚ) / 2) ((j : ℚ) / 2) =
        .finite ((i : ℚ) / 2) ((j : ℚ) / 2) := by
      apply mkFinite_of_le
      have h5 : (5 : ℚ) ≤ maxFloat := by norm_num [maxFloat]
      nlinarith [sq_nonneg ((i : ℚ) / 2), sq_nonneg ((j : ℚ) / 2)]
    rw [hmk]
    rfl

lemma pytruncR_intCast (n : ℤ) : pytruncR (n : ℝ) = n := by
  rw [pytruncR]
  split
  · exact Int.floor_intCast n
  · exact Int.ceil_intCast n

lemma approxR_intCast (n : ℤ) : approxR (n : ℝ) = n := by
  rw [approxR, pytruncR_intCast, if_pos]
  rw [sub_self, abs_zero]
  norm_num

lemma argumentR_range (re im : ℝ) (hnz : ¬(re = 0 ∧ im = 0)) :
    -Real.pi < argumentR re im ∧ argumentR re im ≤ Real.pi := by
  have hpi := Real.pi_pos
  rw [argumentR]
  by_cases h1 : re > 0
  · rw [if_pos h1]
    have ha := Real.arctan_lt_pi_div_two (im / re)
    have hb := Real.neg_pi_div_two_lt_arctan (im / re)
    constructor <;> linarith
  · rw [if_neg h1]
    by_cases h2 : re < 0
    · rw [if_pos h2]
      by_cases h3 : im ≥ 0
      · rw [if_pos h3]
        have harg : im / re ≤ 0 := by
          rcases h3.lt_or_eq with him | him
          · exact le_of_lt (div_neg_of_pos_of_neg him h2)
          · rw [← him, zero_div]
        have ha : Real.arctan (im / re) ≤ 0 := by
          have hm := Real.arctan_strictMono.monotone harg
          rwa [Real.arctan_zero] at hm
        have hb := Real.neg_pi_div_two_lt_arctan (im / re)
        constructor <;> linarith
      · rw [if_neg h3]
        push_neg at h3
        have harg : 0 < im / re := div_pos_iff.mpr (Or.inr ⟨h3, h2⟩)
        have ha : 0 < Real.arctan (im / re) := by
          have hm := Real.arctan_strictMono harg
          rwa [Real.arctan_zero] at hm
        have hb := Real.arctan_lt_pi_div_two (im / re)
        constructor <;> linarith
    · have hre : re = 0 := le_antisymm (not_lt.mp h1) (not_lt.mp h2)
      rw [if_neg h2]
      by_cases h3 : im > 0
      · rw [if_pos h3]
        constructor <;> linarith
      · rw [if_neg h3]
        have him : im < 0 := by
          rcases lt_trichotomy im 0 with h | h | h
          · exact h
          · exact absurd ⟨hre, h⟩ hnz
          · exact absurd h h3
        rw [if_pos him]
        constructor <;> linarith

lemma hue_shift_mem (a : ℝ) (h1 : -Real.pi < a) (h2 : a ≤ Real.pi) :
    0 < (if a * 180 / Real.pi ≤ 0 then a * 180 / Real.pi + 360
      else a * 180 / Real.pi) ∧
    (if a * 180 / Real.pi ≤ 0 then a * 180 / Real.pi + 360
      else a * 180 / Real.pi) ≤ 360 := by
  have hpi := Real.pi_pos
  have hub : a * 180 / Real.pi ≤ 180 := by
    rw [div_le_iff₀ hpi]
    linarith
  have hlb : -180 < a * 180 / Real.pi := by
    rw [lt_div_iff₀ hpi]
    linarith
  by_cases hc : a * 180 / Real.pi ≤ 0
  · rw [if_pos hc]
    constructor <;> linarith
  · rw [if_neg hc]
    push_neg at hc
    constructor <;> linarith

lemma approxR_mem_of (x : ℝ) (h0 : 0 < x) (h1 : x ≤ 360) :
    0 ≤ approxR x ∧ approxR x ≤ 360 := by
  have hpt : pytruncR x = ⌊x⌋ := by rw [pytruncR, if_pos h0.le]
  have hfl0 : 0 ≤ ⌊x⌋ := Int.floor_nonneg.mpr h0.le
  have hfl360 : ⌊x⌋ ≤ 360 := by
    have hmono := Int.floor_le_floor (α := ℝ) h1
    rwa [show ((360 : ℝ)) = ((360 : ℤ) : ℝ) from by norm_num,
      Int.floor_intCast] at hmono
  rw [approxR, hpt]
  by_cases hc : |x - (⌊x⌋ : ℝ)| ≤ 1 / 2
  · rw [if_pos hc]
    exact ⟨hfl0, hfl360⟩
  · rw [if_neg hc, if_pos h0.le]
    refine ⟨by omega, ?_⟩
    by_contra hgt
    push_neg at hgt
    have h360 : ⌊x⌋ = 360 := by omega
    have hxge : (360 : ℝ) ≤ x := by
      have hle := Int.floor_le x
      rw [h360] at hle
      exact_mod_cast hle
    have hxeq : x = 360 := le_antisymm h1 hxge
    apply hc
    rw [h360, hxeq]
    norm_num

/-- C4 (amended): for every Finite, non-null value, the hue computed by HSL
is the argument converted to degrees, shifted by +360 when it is not
positive, and rounded by approx; it lies in the CLOSED range [0, 360]: it is
never negative, but the upper bound 360 is attained (on the positive real
axis the argument is 0, which the shift sends to exactly 360), so the claimed
half-open range [0, 360) fails only at that value. -/
theorem claim_C4_amended (re im : ℝ) (hnz : ¬(re = 0 ∧ im = 0)) :
    0 ≤ hslHue re im ∧ hslHue re im ≤ 360 := by
  obtain ⟨h1, h2⟩ := argumentR_range re im hnz
  obtain ⟨hs0, hs1⟩ := hue_shift_mem (argumentR re im) h1 h2
  unfold hslHue
  rw [approxR_intCast]
  exact approxR_mem_of _ hs0 hs1

theorem claim_C4_witness : 0 ≤ hslHue 1 2 ∧ hslHue 1 2 ≤ 360 :=
  claim_C4_amended 1 2 (by norm_num)

/-- C4: the claim that the rounded hue always lies in [0, 360) is wrong: for
the value 1 on the positive real axis the argument is 0, the degree value 0
satisfies the shift test hue <= 0, and the returned hue is exactly 360. -/
theorem claim_C4_counterexample : hslHue 1 0 = 360 := by
  have harg : argumentR 1 0 = 0 := by
    rw [argumentR, if_pos (by norm_num : (1 : ℝ) > 0), zero_div,
      Real.arctan_zero]
  unfold hslHue
  rw [harg, zero_mul, zero_div, if_pos (le_refl (0 : ℝ)), zero_add]
  rw [show ((360 : ℝ)) = ((360 : ℤ) : ℝ) from by norm_num, approxR_intCast,
    approxR_intCast]
